import Mathlib

/-!
Shallow embedding of the red-black-tree heap allocator in src/mm.c.

The heap is modelled as a byte-addressed memory (a function from addresses
to byte values) together with the global allocator state: the provider
break pointer, the pointer to the first block, and the root of the
red-black tree of free blocks.  Every function of mm.c is translated
statement by statement; loops become fuel-indexed structural recursions.
Machine arithmetic that the source performs on 32-bit unsigned values is
modelled on Nat with an explicit reduction modulo 2^32 at each operation
(the function u32 below).  The NIL sentinel of the tree is a statically
allocated object outside the managed region; it is placed at the fixed
address NILa, far beyond any provider limit used in this development.
-/

namespace MM

/-- Byte-addressed memory: address to byte value. -/
abbrev Mem := Nat → Nat

/-- Write one byte (the stored value is reduced modulo 256, as storing to a byte does). -/
def wr8 (m : Mem) (a v : Nat) : Mem := fun x => if x = a then v % 256 else m x

/-- Read one byte. -/
def rd8 (m : Mem) (a : Nat) : Nat := m a

/-- Store a 32-bit little-endian word, one byte at a time. -/
def wr32 (m : Mem) (a v : Nat) : Mem :=
  wr8 (wr8 (wr8 (wr8 m a v) (a + 1) (v / 256)) (a + 2) (v / 65536)) (a + 3) (v / 16777216)

/-- Load a 32-bit little-endian word. -/
def rd32 (m : Mem) (a : Nat) : Nat :=
  m a + 256 * m (a + 1) + 65536 * m (a + 2) + 16777216 * m (a + 3)

/-- Store a 64-bit little-endian word (used for the pointer fields of tree nodes). -/
def wr64 (m : Mem) (a v : Nat) : Mem :=
  wr32 (wr32 m a v) (a + 4) (v / 4294967296)

/-- Load a 64-bit little-endian word. -/
def rd64 (m : Mem) (a : Nat) : Nat :=
  rd32 m a + 4294967296 * rd32 m (a + 4)

/-- Reduction modulo 2^32: the arithmetic of the 32-bit unsigned values of the source. -/
def u32 (n : Nat) : Nat := n % 4294967296

/-- Conversion of a 32-bit value to the signed interpretation, as the
implicit conversion to int in the source does. -/
def toInt32 (n : Nat) : Int := if n < 2147483648 then (n : Int) else (n : Int) - 4294967296

/-- MAX of mm.c, taking and comparing int values. -/
def MAXi (x y : Nat) : Nat := if toInt32 y < toInt32 x then x else y

/-- WSIZE: word size in bytes. -/
def WSIZE : Nat := 4
/-- DSIZE: double word size in bytes. -/
def DSIZE : Nat := 8
/-- CHUNKSIZE: initial heap size in bytes. -/
def CHUNKSIZE : Nat := 4096
/-- MINBLOCKSIZE = 6*DSIZE. -/
def MINBLOCKSIZE : Nat := 48

/-- RED color tag. -/
def RED : Nat := 1
/-- BLACK color tag. -/
def BLACK : Nat := 0

/-- Address of the static nil_node object; it lives outside the managed region. -/
def NILa : Nat := 1099511627776

/-- Fuel used for the loops of the translated functions; ample for every
state this development evaluates or reasons about (the loops of the source
iterate at most the tree height or block count, far below this bound for
any heap the provider interface can furnish). -/
def FUEL : Nat := 1000000

/-- The global state: memory, provider break, provider limit, pointer to the
first block, and the root of the red-black tree. -/
structure St where
  mem : Mem
  brk : Nat
  limit : Nat
  heap_listp : Nat
  root : Nat

/-- PACK(size, alloc) = size | (alloc & 1). -/
def PACK (size alloc : Nat) : Nat := size ||| (alloc &&& 1)

/-- GET: load a header or footer word. -/
def GET (m : Mem) (p : Nat) : Nat := rd32 m p

/-- PUT: store a header or footer word. -/
def PUT (m : Mem) (p v : Nat) : Mem := wr32 m p v

/-- GET_SIZE: the size bits of a header word (mask off the low three bits). -/
def GET_SIZE (m : Mem) (p : Nat) : Nat := rd32 m p / 8 * 8

/-- GET_ALLOC: the allocation bit of a header word. -/
def GET_ALLOC (m : Mem) (p : Nat) : Nat := rd32 m p % 2

/-- HDRP: address of the header of the block with payload pointer bp. -/
def HDRP (bp : Nat) : Nat := bp - 4

/-- FTRP: address of the footer, read through the size in the header. -/
def FTRP (m : Mem) (bp : Nat) : Nat := bp + GET_SIZE m (HDRP bp) - 8

/-- NEXT_BLKP: payload pointer of the physically next block. -/
def NEXT_BLKP (m : Mem) (bp : Nat) : Nat := bp + GET_SIZE m (bp - 4)

/-- PREV_BLKP: payload pointer of the physically previous block. -/
def PREV_BLKP (m : Mem) (bp : Nat) : Nat := bp - GET_SIZE m (bp - 8)

/-- PARENT field of the tree node stored in the payload of a free block. -/
def PARENT (m : Mem) (bp : Nat) : Nat := rd64 m bp

/-- LEFT field of a tree node. -/
def LEFT (m : Mem) (bp : Nat) : Nat := rd64 m (bp + 8)

/-- RIGHT field of a tree node. -/
def RIGHT (m : Mem) (bp : Nat) : Nat := rd64 m (bp + 16)

/-- COLOR field of a tree node (one byte). -/
def COLOR (m : Mem) (bp : Nat) : Nat := rd8 m (bp + 24)

/-- SET_COLOR writes the color byte of a node. -/
def SET_COLOR (m : Mem) (bp c : Nat) : Mem := wr8 m (bp + 24) c

/-- Modelled from the spec: the byte-region provider (memlib, outside src/)
exposes extend(n), growing the managed region upward and returning a pointer
to the previously mapped end, or a failure value when it cannot grow (the
increment, passed as int, is negative or the limit would be exceeded). -/
def mem_sbrk (s : St) (incr : Nat) : St × Option Nat :=
  if incr < 2147483648 ∧ s.brk + incr ≤ s.limit then
    ({ s with brk := s.brk + incr }, some s.brk)
  else (s, none)

/-- Modelled from the spec: libc memcpy (outside src/) copies n bytes from
src to dst; the regions the allocator passes never overlap. -/
def memcpy (m : Mem) (dst src n : Nat) : Mem :=
  fun x => if dst ≤ x ∧ x < dst + n then m (src + (x - dst)) else m x

/-- left_rotate of mm.c, statement by statement. -/
def left_rotate (s : St) (x : Nat) : St :=
  let y := RIGHT s.mem x
  let m1 := wr64 s.mem (x + 16) (LEFT s.mem y)
  let m2 := if LEFT m1 y ≠ NILa then wr64 m1 (LEFT m1 y) x else m1
  let m3 := wr64 m2 y (PARENT m2 x)
  let s3 : St := { s with mem := m3 }
  let s4 : St :=
    if PARENT s3.mem x = NILa then { s3 with root := y }
    else if x = LEFT s3.mem (PARENT s3.mem x) then
      { s3 with mem := wr64 s3.mem (PARENT s3.mem x + 8) y }
    else
      { s3 with mem := wr64 s3.mem (PARENT s3.mem x + 16) y }
  let m5 := wr64 s4.mem (y + 8) x
  { s4 with mem := wr64 m5 x y }

/-- right_rotate of mm.c, statement by statement. -/
def right_rotate (s : St) (x : Nat) : St :=
  let y := LEFT s.mem x
  let m1 := wr64 s.mem (x + 8) (RIGHT s.mem y)
  let m2 := if RIGHT m1 y ≠ NILa then wr64 m1 (RIGHT m1 y) x else m1
  let m3 := wr64 m2 y (PARENT m2 x)
  let s3 : St := { s with mem := m3 }
  let s4 : St :=
    if PARENT s3.mem x = NILa then { s3 with root := y }
    else if x = RIGHT s3.mem (PARENT s3.mem x) then
      { s3 with mem := wr64 s3.mem (PARENT s3.mem x + 16) y }
    else
      { s3 with mem := wr64 s3.mem (PARENT s3.mem x + 8) y }
  let m5 := wr64 s4.mem (y + 16) x
  { s4 with mem := wr64 m5 x y }

/-- The descent loop of rbt_insert: x walks from the root, y trails behind;
returns the final y. -/
def rbt_insert_desc (m : Mem) (size : Nat) : Nat → Nat → Nat → Nat
  | 0, _, y => y
  | fuel + 1, x, y =>
    if x ≠ NILa then
      rbt_insert_desc m size fuel
        (if size < GET_SIZE m (x - 4) then LEFT m x else RIGHT m x) x
    else y

/-- One round of the while loop of rbt_insert_fixup; returns the state and
the updated bp. -/
def rbt_insert_fixup_go (s : St) (bp : Nat) : Nat → St × Nat
  | 0 => (s, bp)
  | fuel + 1 =>
    if bp ≠ s.root ∧ COLOR s.mem (PARENT s.mem bp) = RED then
      if PARENT s.mem bp = LEFT s.mem (PARENT s.mem (PARENT s.mem bp)) then
        let uncle := RIGHT s.mem (PARENT s.mem (PARENT s.mem bp))
        if COLOR s.mem uncle = RED then
          let m1 := SET_COLOR s.mem (PARENT s.mem bp) BLACK
          let m2 := SET_COLOR m1 uncle BLACK
          let m3 := SET_COLOR m2 (PARENT m2 (PARENT m2 bp)) RED
          rbt_insert_fixup_go { s with mem := m3 } (PARENT m3 (PARENT m3 bp)) fuel
        else
          let sb : St × Nat :=
            if bp = RIGHT s.mem (PARENT s.mem bp) then
              (left_rotate s (PARENT s.mem bp), PARENT s.mem bp)
            else (s, bp)
          let s1 := sb.1
          let bp1 := sb.2
          let m1 := SET_COLOR s1.mem (PARENT s1.mem bp1) BLACK
          let m2 := SET_COLOR m1 (PARENT m1 (PARENT m1 bp1)) RED
          let s2 := right_rotate { s1 with mem := m2 } (PARENT m2 (PARENT m2 bp1))
          rbt_insert_fixup_go s2 bp1 fuel
      else
        let uncle := LEFT s.mem (PARENT s.mem (PARENT s.mem bp))
        if COLOR s.mem uncle = RED then
          let m1 := SET_COLOR s.mem (PARENT s.mem bp) BLACK
          let m2 := SET_COLOR m1 uncle BLACK
          let m3 := SET_COLOR m2 (PARENT m2 (PARENT m2 bp)) RED
          rbt_insert_fixup_go { s with mem := m3 } (PARENT m3 (PARENT m3 bp)) fuel
        else
          let sb : St × Nat :=
            if bp = LEFT s.mem (PARENT s.mem bp) then
              (right_rotate s (PARENT s.mem bp), PARENT s.mem bp)
            else (s, bp)
          let s1 := sb.1
          let bp1 := sb.2
          let m1 := SET_COLOR s1.mem (PARENT s1.mem bp1) BLACK
          let m2 := SET_COLOR m1 (PARENT m1 (PARENT m1 bp1)) RED
          let s2 := left_rotate { s1 with mem := m2 } (PARENT m2 (PARENT m2 bp1))
          rbt_insert_fixup_go s2 bp1 fuel
    else (s, bp)

/-- rbt_insert_fixup of mm.c: the loop followed by recoloring the root black. -/
def rbt_insert_fixup (s : St) (bp fuel : Nat) : St :=
  let r := rbt_insert_fixup_go s bp fuel
  { r.1 with mem := SET_COLOR r.1.mem r.1.root BLACK }

/-- rbt_insert of mm.c. -/
def rbt_insert (s : St) (bp fuel : Nat) : St :=
  let size := GET_SIZE s.mem (bp - 4)
  let y := rbt_insert_desc s.mem size fuel s.root NILa
  let m1 := wr64 s.mem bp y
  let s1 : St := { s with mem := m1 }
  let s2 : St :=
    if y = NILa then { s1 with root := bp }
    else if size < GET_SIZE s1.mem (y - 4) then { s1 with mem := wr64 s1.mem (y + 8) bp }
    else { s1 with mem := wr64 s1.mem (y + 16) bp }
  let s3 : St := { s2 with mem := SET_COLOR s2.mem bp RED }
  rbt_insert_fixup s3 bp fuel

/-- rbt_transplant of mm.c. -/
def rbt_transplant (s : St) (u v : Nat) : St :=
  let s1 : St :=
    if PARENT s.mem u = NILa then { s with root := v }
    else if u = LEFT s.mem (PARENT s.mem u) then
      { s with mem := wr64 s.mem (PARENT s.mem u + 8) v }
    else
      { s with mem := wr64 s.mem (PARENT s.mem u + 16) v }
  { s1 with mem := wr64 s1.mem v (PARENT s1.mem u) }

/-- rbt_minimum of mm.c (loop with fuel). -/
def rbt_minimum (m : Mem) : Nat → Nat → Nat
  | 0, node => node
  | fuel + 1, node => if LEFT m node ≠ NILa then rbt_minimum m fuel (LEFT m node) else node

/-- One round of the while loop of rbt_remove_fixup; returns the state and
the updated x. -/
def rbt_remove_fixup_go (s : St) (x : Nat) : Nat → St × Nat
  | 0 => (s, x)
  | fuel + 1 =>
    if x ≠ s.root ∧ COLOR s.mem x = BLACK then
      if x = LEFT s.mem (PARENT s.mem x) then
        let w0 := RIGHT s.mem (PARENT s.mem x)
        let sw : St × Nat :=
          if COLOR s.mem w0 = RED then
            let m1 := SET_COLOR s.mem w0 BLACK
            let m2 := SET_COLOR m1 (PARENT m1 x) RED
            let sA := left_rotate { s with mem := m2 } (PARENT m2 x)
            (sA, RIGHT sA.mem (PARENT sA.mem x))
          else (s, w0)
        let s1 := sw.1
        let w1 := sw.2
        if COLOR s1.mem (LEFT s1.mem w1) = BLACK ∧ COLOR s1.mem (RIGHT s1.mem w1) = BLACK then
          let m1 := SET_COLOR s1.mem w1 RED
          rbt_remove_fixup_go { s1 with mem := m1 } (PARENT m1 x) fuel
        else
          let sw2 : St × Nat :=
            if COLOR s1.mem (RIGHT s1.mem w1) = BLACK then
              let m1 := SET_COLOR s1.mem (LEFT s1.mem w1) BLACK
              let m2 := SET_COLOR m1 w1 RED
              let sB := right_rotate { s1 with mem := m2 } w1
              (sB, RIGHT sB.mem (PARENT sB.mem x))
            else (s1, w1)
          let s2 := sw2.1
          let w2 := sw2.2
          let m1 := SET_COLOR s2.mem w2 (COLOR s2.mem (PARENT s2.mem x))
          let m2 := SET_COLOR m1 (PARENT m1 x) BLACK
          let m3 := SET_COLOR m2 (RIGHT m2 w2) BLACK
          let sC := left_rotate { s2 with mem := m3 } (PARENT m3 x)
          rbt_remove_fixup_go sC sC.root fuel
      else
        let w0 := LEFT s.mem (PARENT s.mem x)
        let sw : St × Nat :=
          if COLOR s.mem w0 = RED then
            let m1 := SET_COLOR s.mem w0 BLACK
            let m2 := SET_COLOR m1 (PARENT m1 x) RED
            let sA := right_rotate { s with mem := m2 } (PARENT m2 x)
            (sA, LEFT sA.mem (PARENT sA.mem x))
          else (s, w0)
        let s1 := sw.1
        let w1 := sw.2
        if COLOR s1.mem (RIGHT s1.mem w1) = BLACK ∧ COLOR s1.mem (LEFT s1.mem w1) = BLACK then
          let m1 := SET_COLOR s1.mem w1 RED
          rbt_remove_fixup_go { s1 with mem := m1 } (PARENT m1 x) fuel
        else
          let sw2 : St × Nat :=
            if COLOR s1.mem (LEFT s1.mem w1) = BLACK then
              let m1 := SET_COLOR s1.mem (RIGHT s1.mem w1) BLACK
              let m2 := SET_COLOR m1 w1 RED
              let sB := left_rotate { s1 with mem := m2 } w1
              (sB, LEFT sB.mem (PARENT sB.mem x))
            else (s1, w1)
          let s2 := sw2.1
          let w2 := sw2.2
          let m1 := SET_COLOR s2.mem w2 (COLOR s2.mem (PARENT s2.mem x))
          let m2 := SET_COLOR m1 (PARENT m1 x) BLACK
          let m3 := SET_COLOR m2 (LEFT m2 w2) BLACK
          let sC := right_rotate { s2 with mem := m3 } (PARENT m3 x)
          rbt_remove_fixup_go sC sC.root fuel
    else (s, x)

/-- rbt_remove_fixup of mm.c: the loop followed by recoloring x black. -/
def rbt_remove_fixup (s : St) (x fuel : Nat) : St :=
  let r := rbt_remove_fixup_go s x fuel
  { r.1 with mem := SET_COLOR r.1.mem r.2 BLACK }

/-- rbt_remove of mm.c. -/
def rbt_remove (s : St) (bp fuel : Nat) : St :=
  let y0c := COLOR s.mem bp
  if LEFT s.mem bp = NILa then
    let x := RIGHT s.mem bp
    let s1 := rbt_transplant s bp (RIGHT s.mem bp)
    if y0c = BLACK then rbt_remove_fixup s1 x fuel else s1
  else if RIGHT s.mem bp = NILa then
    let x := LEFT s.mem bp
    let s1 := rbt_transplant s bp (LEFT s.mem bp)
    if y0c = BLACK then rbt_remove_fixup s1 x fuel else s1
  else
    let y := rbt_minimum s.mem fuel (RIGHT s.mem bp)
    let yc := COLOR s.mem y
    let x := RIGHT s.mem y
    let s1 : St :=
      if PARENT s.mem y = bp then { s with mem := wr64 s.mem x y }
      else
        let sA := rbt_transplant s y (RIGHT s.mem y)
        let mB := wr64 sA.mem (y + 16) (RIGHT sA.mem bp)
        { sA with mem := wr64 mB (RIGHT mB y) y }
    let s2 := rbt_transplant s1 bp y
    let m3 := wr64 s2.mem (y + 8) (LEFT s2.mem bp)
    let m4 := wr64 m3 (LEFT m3 y) y
    let m5 := SET_COLOR m4 y (COLOR m4 bp)
    let s5 : St := { s2 with mem := m5 }
    if yc = BLACK then rbt_remove_fixup s5 x fuel else s5

/-- rbt_find_best_fit of mm.c: recursive descent carrying the best candidate
(NULL is the none case). -/
def rbt_find_best_fit (m : Mem) (asize : Nat) : Nat → Nat → Option Nat → Option Nat
  | 0, _, best => best
  | fuel + 1, node, best =>
    if node = NILa then best
    else
      if asize ≤ GET_SIZE m (node - 4) then
        let best1 : Option Nat :=
          match best with
          | none => some node
          | some b => if GET_SIZE m (node - 4) < GET_SIZE m (b - 4) then some node else some b
        rbt_find_best_fit m asize fuel (LEFT m node) best1
      else rbt_find_best_fit m asize fuel (RIGHT m node) best

/-- insert_free_block of mm.c: reset the node fields of bp and insert. -/
def insert_free_block (s : St) (bp _size fuel : Nat) : St :=
  let m1 := wr64 s.mem bp NILa
  let m2 := wr64 m1 (bp + 8) NILa
  let m3 := wr64 m2 (bp + 16) NILa
  let m4 := SET_COLOR m3 bp RED
  rbt_insert { s with mem := m4 } bp fuel

/-- remove_free_block of mm.c. -/
def remove_free_block (s : St) (bp fuel : Nat) : St :=
  rbt_remove s bp fuel

/-- find_fit of mm.c. -/
def find_fit (s : St) (asize : Nat) : Option Nat :=
  rbt_find_best_fit s.mem asize FUEL s.root none

/-- coalesce of mm.c; returns the new state and the resulting block pointer. -/
def coalesce (s : St) (bp fuel : Nat) : St × Nat :=
  let prev_alloc := GET_ALLOC s.mem (FTRP s.mem (PREV_BLKP s.mem bp))
  let next_alloc := GET_ALLOC s.mem (HDRP (NEXT_BLKP s.mem bp))
  let size := GET_SIZE s.mem (HDRP bp)
  if prev_alloc ≠ 0 ∧ next_alloc ≠ 0 then
    let s9 := insert_free_block s bp size fuel
    (s9, bp)
  else if prev_alloc ≠ 0 ∧ next_alloc = 0 then
    let s1 := remove_free_block s (NEXT_BLKP s.mem bp) fuel
    let size2 := u32 (size + GET_SIZE s1.mem (HDRP (NEXT_BLKP s1.mem bp)))
    let mA := PUT s1.mem (HDRP bp) (PACK size2 0)
    let mB := PUT mA (FTRP mA bp) (PACK size2 0)
    let s9 := insert_free_block { s1 with mem := mB } bp size2 fuel
    (s9, bp)
  else if prev_alloc = 0 ∧ next_alloc ≠ 0 then
    let s1 := remove_free_block s (PREV_BLKP s.mem bp) fuel
    let size2 := u32 (size + GET_SIZE s1.mem (HDRP (PREV_BLKP s1.mem bp)))
    let mA := PUT s1.mem (FTRP s1.mem bp) (PACK size2 0)
    let mB := PUT mA (HDRP (PREV_BLKP mA bp)) (PACK size2 0)
    let bp2 := PREV_BLKP mB bp
    let s9 := insert_free_block { s1 with mem := mB } bp2 size2 fuel
    (s9, bp2)
  else
    let s1 := remove_free_block s (PREV_BLKP s.mem bp) fuel
    let s2 := remove_free_block s1 (NEXT_BLKP s1.mem bp) fuel
    let size2 := u32 (size + u32 (GET_SIZE s2.mem (HDRP (PREV_BLKP s2.mem bp)) +
      GET_SIZE s2.mem (FTRP s2.mem (NEXT_BLKP s2.mem bp))))
    let mA := PUT s2.mem (HDRP (PREV_BLKP s2.mem bp)) (PACK size2 0)
    let mB := PUT mA (FTRP mA (NEXT_BLKP mA bp)) (PACK size2 0)
    let bp2 := PREV_BLKP mB bp
    let s9 := insert_free_block { s2 with mem := mB } bp2 size2 fuel
    (s9, bp2)

/-- extend_heap of mm.c. -/
def extend_heap (s : St) (words fuel : Nat) : St × Option Nat :=
  let size := u32 (if words % 2 = 1 then (words + 1) * WSIZE else words * WSIZE)
  match mem_sbrk s size with
  | (s1, none) => (s1, none)
  | (s1, some bp) =>
    let mA := PUT s1.mem (HDRP bp) (PACK size 0)
    let mB := PUT mA (FTRP mA bp) (PACK size 0)
    let mC := PUT mB (HDRP (NEXT_BLKP mB bp)) (PACK 0 1)
    let r := coalesce { s1 with mem := mC } bp fuel
    (r.1, some r.2)

/-- place of mm.c. -/
def place (s : St) (bp asize fuel : Nat) : St :=
  let csize := GET_SIZE s.mem (HDRP bp)
  let s1 := remove_free_block s bp fuel
  if MINBLOCKSIZE ≤ csize - asize then
    let mA := PUT s1.mem (HDRP bp) (PACK asize 1)
    let mB := PUT mA (FTRP mA bp) (PACK asize 1)
    let new_bp := NEXT_BLKP mB bp
    let mC := PUT mB (HDRP new_bp) (PACK (csize - asize) 0)
    let mD := PUT mC (FTRP mC new_bp) (PACK (csize - asize) 0)
    insert_free_block { s1 with mem := mD } new_bp (csize - asize) fuel
  else
    let mA := PUT s1.mem (HDRP bp) (PACK csize 1)
    let mB := PUT mA (FTRP mA bp) (PACK csize 1)
    { s1 with mem := mB }

/-- mm_init of mm.c.  Returns the new state and 0 on success, -1 on failure. -/
def mm_init (s : St) : St × Int :=
  let m0 := wr64 s.mem NILa NILa
  let m1 := wr64 m0 (NILa + 8) NILa
  let m2 := wr64 m1 (NILa + 16) NILa
  let m3 := SET_COLOR m2 NILa BLACK
  let s0 : St := { s with mem := m3, root := NILa }
  match mem_sbrk s0 (4 * WSIZE) with
  | (s1, none) => (s1, -1)
  | (s1, some hp) =>
    let mA := PUT s1.mem hp 0
    let mB := PUT mA (hp + WSIZE) (PACK DSIZE 1)
    let mC := PUT mB (hp + 2 * WSIZE) (PACK DSIZE 1)
    let mD := PUT mC (hp + 3 * WSIZE) (PACK 0 1)
    let s2 : St := { s1 with mem := mD, heap_listp := hp + 2 * WSIZE }
    match extend_heap s2 (CHUNKSIZE / WSIZE) FUEL with
    | (s3, none) => (s3, -1)
    | (s3, some _) => (s3, 0)

/-- The adjusted size computation shared by mm_malloc and mm_realloc,
performed on 32-bit unsigned values. -/
def adjSize (size : Nat) : Nat :=
  if size ≤ DSIZE then 2 * DSIZE
  else u32 (DSIZE * (u32 (size + DSIZE + (DSIZE - 1)) / DSIZE))

/-- mm_malloc of mm.c. -/
def mm_malloc (s : St) (size : Nat) : St × Option Nat :=
  if size = 0 then (s, none)
  else
    let asize := MAXi (adjSize size) MINBLOCKSIZE
    match find_fit s asize with
    | some bp => (place s bp asize FUEL, some bp)
    | none =>
      let extendsize := MAXi asize CHUNKSIZE
      match extend_heap s (extendsize / WSIZE) FUEL with
      | (s1, none) => (s1, none)
      | (s1, some bp) => (place s1 bp asize FUEL, some bp)

/-- mm_free of mm.c. -/
def mm_free (s : St) (bp : Nat) : St :=
  if bp = 0 then s
  else
    let size := GET_SIZE s.mem (HDRP bp)
    let m1 := PUT s.mem (HDRP bp) (PACK size 0)
    let m2 := PUT m1 (FTRP m1 bp) (PACK size 0)
    (coalesce { s with mem := m2 } bp FUEL).1

/-- mm_realloc of mm.c. -/
def mm_realloc (s : St) (ptr size : Nat) : St × Option Nat :=
  if size = 0 then (mm_free s ptr, none)
  else if ptr = 0 then mm_malloc s size
  else
    let old_size := u32 (GET_SIZE s.mem (HDRP ptr) + 4294967296 - DSIZE)
    let asize := MAXi (adjSize size) MINBLOCKSIZE
    if asize ≤ GET_SIZE s.mem (HDRP ptr) then
      let csize := GET_SIZE s.mem (HDRP ptr)
      if MINBLOCKSIZE ≤ csize - asize then
        let mA := PUT s.mem (HDRP ptr) (PACK asize 1)
        let mB := PUT mA (FTRP mA ptr) (PACK asize 1)
        let new_bp := NEXT_BLKP mB ptr
        let mC := PUT mB (HDRP new_bp) (PACK (csize - asize) 0)
        let mD := PUT mC (FTRP mC new_bp) (PACK (csize - asize) 0)
        (insert_free_block { s with mem := mD } new_bp (csize - asize) FUEL, some ptr)
      else (s, some ptr)
    else
      let csize := GET_SIZE s.mem (HDRP ptr)
      let next_bp := NEXT_BLKP s.mem ptr
      if GET_ALLOC s.mem (HDRP next_bp) = 0 ∧
          asize ≤ u32 (GET_SIZE s.mem (HDRP next_bp) + csize) then
        let s1 := remove_free_block s next_bp FUEL
        let new_size := u32 (csize + GET_SIZE s1.mem (HDRP next_bp))
        let mA := PUT s1.mem (HDRP ptr) (PACK new_size 1)
        let mB := PUT mA (FTRP mA ptr) (PACK new_size 1)
        let s2 : St := { s1 with mem := mB }
        if MINBLOCKSIZE ≤ new_size - asize then
          let mC := PUT s2.mem (HDRP ptr) (PACK asize 1)
          let mD := PUT mC (FTRP mC ptr) (PACK asize 1)
          let new_bp2 := NEXT_BLKP mD ptr
          let mE := PUT mD (HDRP new_bp2) (PACK (new_size - asize) 0)
          let mF := PUT mE (FTRP mE new_bp2) (PACK (new_size - asize) 0)
          (insert_free_block { s2 with mem := mF } new_bp2 (new_size - asize) FUEL, some ptr)
        else (s2, some ptr)
      else
        match mm_malloc s size with
        | (s1, none) => (s1, none)
        | (s1, some new_ptr) =>
          let copy_size := if size < old_size then size else old_size
          let m2 := memcpy s1.mem new_ptr ptr copy_size
          (mm_free { s1 with mem := m2 } ptr, some new_ptr)

/-- The start address handed to the allocator by the provider. -/
def memStart : Nat := 16

/-- The blank machine before mm_init, with the given provider limit. -/
def initSt (limit : Nat) : St :=
  { mem := fun _ => 0, brk := memStart, limit := limit, heap_listp := 0, root := 0 }

/-- Walk the physical block list from the given payload pointer, recording
payload address, size and allocation bit, until the epilogue (size 0). -/
def blockListGo (m : Mem) : Nat → Nat → List (Nat × Nat × Nat)
  | 0, _ => []
  | fuel + 1, bp =>
    let sz := GET_SIZE m (HDRP bp)
    if sz = 0 then []
    else (bp, sz, GET_ALLOC m (HDRP bp)) :: blockListGo m fuel (bp + sz)

/-- The physical block list between prologue and epilogue. -/
def blockList (s : St) : List (Nat × Nat × Nat) :=
  blockListGo s.mem FUEL (NEXT_BLKP s.mem s.heap_listp)

/-- The payload addresses of the free blocks, in physical order. -/
def freeList (s : St) : List Nat :=
  ((blockList s).filter (fun b => b.2.2 = 0)).map (fun b => b.1)

/-- Adjacent-free check on a block list: no two consecutive blocks are both free. -/
def noTwoAdjacentFree : List (Nat × Nat × Nat) → Bool
  | [] => true
  | [_] => true
  | a :: b :: rest => !(a.2.2 = 0 ∧ b.2.2 = 0) && noTwoAdjacentFree (b :: rest)

/-- State after a successful mm_init with an ample provider limit. -/
def sInit : St := (mm_init (initSt 100000)).1

/-- Simple cycle trace: p = allocate(40); free(p). -/
def sCycle : St := mm_free (mm_malloc sInit 40).1 32

/-- Trace: p = allocate(200); the heap is p followed by one free block. -/
def sShrinkPre : St := (mm_malloc sInit 200).1

/-- Trace: shrinking reallocate(p, 40) on a block whose right neighbor is free. -/
def sShrink : St := (mm_realloc sShrinkPre 32 40).1

/-- Trace towards the NIL-parent counterexample: a = allocate(100). -/
def sNil1 : St := (mm_malloc sInit 100).1

/-- Then b = allocate(100). -/
def sNil2 : St := (mm_malloc sNil1 100).1

/-- Then free(a); the tree now has two nodes. -/
def sNil3 : St := mm_free sNil2 32

/-- Then allocate(40): the best fit is the freed a, a non-root leaf whose
removal transplants NIL and stores a real node into the NIL parent field. -/
def sNil4 : St := (mm_malloc sNil3 40).1

/-- A provider limited to exactly the initial 16 + CHUNKSIZE bytes. -/
def sTight : St := (mm_init (initSt 4128)).1

/-- Then p = allocate(4000): the heap is almost exhausted. -/
def sTight1 : St := (mm_malloc sTight 4000).1

/-- Trace towards a 2^31-byte allocated block: init with a 2 GiB provider. -/
def sBig0 : St := (mm_init (initSt 2147483696)).1

/-- Then p = allocate(2147479537): a 2147479552-byte allocated block at 32,
followed by a free 4096-byte block. -/
def sBig1 : St := (mm_malloc sBig0 2147479537).1

/-- Then reallocate(p, 2147483617): the request still fits in a positive
int, the free right neighbor is absorbed and the 16-byte remainder is too
small to split, leaving a single allocated block of exactly 2^31 bytes. -/
def sBig : St := (mm_realloc sBig1 32 2147483617).1

/-!  Abstract view of the free-block tree, used to state the best-fit claim:
an inductive tree of payload addresses mirroring the node structure the
memory stores, with an executable predicate tying the two together. -/

/-- Inductive mirror of the tree of free blocks: each node carries the
payload address of a free block. -/
inductive RTree where
  | nil : RTree
  | node (bp : Nat) (l r : RTree) : RTree
deriving DecidableEq

/-- The node addresses of the tree, root first. -/
def RTree.elems : RTree → List Nat
  | .nil => []
  | .node bp l r => bp :: (l.elems ++ r.elems)

/-- Number of nodes. -/
def RTree.count : RTree → Nat
  | .nil => 0
  | .node _ l r => l.count + r.count + 1

/-- The memory stores the tree T at address a whose parent field holds p:
nil corresponds to the NIL sentinel, and at every node the stored parent,
left and right fields agree with the inductive structure. -/
def encodes (m : Mem) : Nat → Nat → RTree → Bool
  | a, _, .nil => a == NILa
  | a, p, .node bp l r =>
    a == bp && (a != NILa) && (PARENT m a == p) &&
      encodes m (LEFT m a) a l && encodes m (RIGHT m a) a r

/-- Search-tree order on sizes: sizes in the left subtree at most the
node's size, sizes in the right subtree at least the node's size.
rbt_insert sends strictly smaller sizes left and ties right, and the
fixup rotations preserve the in-order sequence, so they maintain exactly
this non-strict order (rotations can move an equal size into a left
subtree). -/
def orderedB (sz : Nat → Nat) : RTree → Bool
  | .nil => true
  | .node bp l r =>
    l.elems.all (fun c => decide (sz c ≤ sz bp)) &&
      r.elems.all (fun c => decide (sz bp ≤ sz c)) &&
      orderedB sz l && orderedB sz r

/-- Functional mirror of rbt_find_best_fit over the inductive tree: at a
fitting node record it when it improves on the candidate and descend left,
otherwise descend right. -/
def findBestFit (sz : Nat → Nat) (asize : Nat) : RTree → Option Nat → Option Nat
  | .nil, best => best
  | .node bp l r, best =>
    if asize ≤ sz bp then
      let best1 : Option Nat :=
        match best with
        | none => some bp
        | some b => if sz bp < sz b then some bp else some b
      findBestFit sz asize l best1
    else findBestFit sz asize r best

/-- The adjusted block size the specification describes for a request of n
payload bytes: n + 8 bytes of overhead, rounded up to a multiple of 8, and
at least MINBLOCKSIZE. -/
def adjustedSize (n : Nat) : Nat := max MINBLOCKSIZE ((n + 8 + 7) / 8 * 8)

/-!  Theorems. -/

set_option maxRecDepth 1000000

/-- u32 is the identity below 2^32. -/
theorem u32_eq {n : Nat} (h : n < 4294967296) : u32 n = n := Nat.mod_eq_of_lt h

/-- MAX behaves as Nat max when both values fit in a positive int. -/
theorem MAXi_eq_max (x y : Nat) (hx : x < 2147483648) (hy : y < 2147483648) :
    MAXi x y = max x y := by
  have hx' : toInt32 x = (x : Int) := by unfold toInt32; rw [if_pos hx]
  have hy' : toInt32 y = (y : Int) := by unfold toInt32; rw [if_pos hy]
  unfold MAXi
  rw [hx', hy', Nat.max_def]
  by_cases h : y < x
  · rw [if_pos (by exact_mod_cast h), if_neg (by omega)]
  · rw [if_neg (by exact_mod_cast h), if_pos (by omega)]

/-- For requests of at most DSIZE bytes the raw adjusted size is 16. -/
theorem adjSize_of_le (n : Nat) (h : n ≤ 8) : adjSize n = 16 := by
  simp [adjSize, DSIZE, h]

/-- For larger requests the raw adjusted size is n + 15 rounded down to a
multiple of 8, provided the 32-bit sum does not wrap. -/
theorem adjSize_of_gt (n : Nat) (hn : 8 < n) (h : n + 15 < 4294967296) :
    adjSize n = (n + 15) / 8 * 8 := by
  have hle : (n + 15) / 8 * 8 ≤ n + 15 := Nat.div_mul_le_self (n + 15) 8
  simp only [adjSize, DSIZE, u32]
  rw [if_neg (by omega)]
  have e1 : n + 8 + (8 - 1) = n + 15 := by omega
  rw [e1, Nat.mod_eq_of_lt h, Nat.mul_comm 8 ((n + 15) / 8), Nat.mod_eq_of_lt (by omega)]

/-- The adjusted size computed by the source equals the one the spec
describes whenever the request is moderate. -/
theorem adjSize_eq_adjustedSize (n : Nat) (h : n + 15 < 2147483648) :
    MAXi (adjSize n) MINBLOCKSIZE = adjustedSize n := by
  have hle : (n + 15) / 8 * 8 ≤ n + 15 := Nat.div_mul_le_self (n + 15) 8
  by_cases hn : n ≤ 8
  · rw [adjSize_of_le n hn, adjustedSize]
    rw [MAXi_eq_max 16 MINBLOCKSIZE (by omega) (by simp [MINBLOCKSIZE])]
    simp only [MINBLOCKSIZE]
    have h16 : (n + 8 + 7) / 8 * 8 ≤ 16 := by
      have : (n + 8 + 7) / 8 ≤ 2 := by omega
      omega
    rw [Nat.max_def, Nat.max_def]
    rw [if_pos (by omega), if_neg (by omega)]
  · rw [adjSize_of_gt n (by omega) (by omega), adjustedSize]
    rw [MAXi_eq_max _ MINBLOCKSIZE (by omega) (by simp [MINBLOCKSIZE])]
    simp only [MINBLOCKSIZE]
    have e1 : n + 8 + 7 = n + 15 := by omega
    rw [e1, Nat.max_comm]

/-- If the payload request fits in the current block, the computed adjusted
size is at most the block size. -/
theorem asize_le_csize (n csize : Nat) (h8 : csize % 8 = 0)
    (h48 : 48 ≤ csize) (hcs : csize < 4294967296) (hn : n + 8 ≤ csize) :
    MAXi (adjSize n) MINBLOCKSIZE ≤ csize := by
  by_cases hn8 : n ≤ 8
  · rw [adjSize_of_le n hn8,
      MAXi_eq_max 16 MINBLOCKSIZE (by omega) (by simp [MINBLOCKSIZE])]
    simp only [MINBLOCKSIZE]
    rw [Nat.max_def, if_pos (by omega)]
    omega
  · have hle : (n + 15) / 8 * 8 ≤ n + 15 := Nat.div_mul_le_self (n + 15) 8
    have ha : adjSize n = (n + 15) / 8 * 8 := adjSize_of_gt n (by omega) (by omega)
    have hfits : (n + 15) / 8 * 8 ≤ csize := by omega
    rw [ha]
    by_cases hbig : (n + 15) / 8 * 8 < 2147483648
    · rw [MAXi_eq_max _ MINBLOCKSIZE hbig (by simp [MINBLOCKSIZE])]
      simp only [MINBLOCKSIZE]
      rw [Nat.max_le]
      exact ⟨hfits, by omega⟩
    · have hx : toInt32 ((n + 15) / 8 * 8) = (((n + 15) / 8 * 8 : Nat) : Int) - 4294967296 := by
        unfold toInt32
        rw [if_neg (by omega)]
      have hy : toInt32 MINBLOCKSIZE = (((48 : Nat) : Int)) := by
        unfold toInt32 MINBLOCKSIZE
        rw [if_pos (by omega)]
      have hbound : (n + 15) / 8 * 8 ≤ csize + 7 := by omega
      have hend : MAXi ((n + 15) / 8 * 8) MINBLOCKSIZE = MINBLOCKSIZE := by
        unfold MAXi
        rw [hx, hy, if_neg (by push_cast; omega)]
      rw [hend]
      simp only [MINBLOCKSIZE]
      omega

/-- Every entry of the block walk records the size and allocation bit its
header stores. -/
theorem mem_blockListGo (m : Mem) :
    ∀ (fuel bp : Nat) (x : Nat × Nat × Nat), x ∈ blockListGo m fuel bp →
      x.2.1 = GET_SIZE m (HDRP x.1) ∧ x.2.2 = GET_ALLOC m (HDRP x.1)
  | 0, _, _, h => by simp [blockListGo] at h
  | fuel + 1, bp, x, h => by
    simp only [blockListGo] at h
    split at h
    · simp at h
    · rcases List.mem_cons.1 h with h | h
      · subst h; exact ⟨rfl, rfl⟩
      · exact mem_blockListGo m fuel _ x h

/-- With enough fuel, the pointer-chasing best-fit search of mm.c computes
exactly the functional search over the encoded inductive tree. -/
theorem rbt_find_best_fit_refines (m : Mem) (asize : Nat) :
    ∀ (T : RTree) (fuel a p : Nat) (best : Option Nat),
      encodes m a p T = true → T.count < fuel →
      rbt_find_best_fit m asize fuel a best =
        findBestFit (fun bp => GET_SIZE m (bp - 4)) asize T best
  | .nil, fuel, a, _, best, henc, hf => by
    obtain ⟨f, rfl⟩ : ∃ f, fuel = f + 1 := ⟨fuel - 1, by omega⟩
    simp only [encodes, beq_iff_eq] at henc
    simp [rbt_find_best_fit, henc, findBestFit]
  | .node bp l r, fuel, a, p, best, henc, hf => by
    obtain ⟨f, rfl⟩ : ∃ f, fuel = f + 1 := ⟨fuel - 1, by omega⟩
    simp only [encodes, Bool.and_eq_true, beq_iff_eq, bne_iff_ne] at henc
    obtain ⟨⟨⟨⟨rfl, hne⟩, _⟩, hl⟩, hr⟩ := henc
    rw [RTree.count] at hf
    simp only [rbt_find_best_fit, findBestFit]
    rw [if_neg hne]
    by_cases hfit : asize ≤ GET_SIZE m (a - 4)
    · rw [if_pos hfit, if_pos hfit]
      exact rbt_find_best_fit_refines m asize l f (LEFT m a) a _ hl (by omega)
    · rw [if_neg hfit, if_neg hfit]
      exact rbt_find_best_fit_refines m asize r f (RIGHT m a) a best hr (by omega)

/-- The functional best-fit search returns none exactly when it started with
no candidate and no element of the (ordered) tree fits. -/
theorem findBestFit_eq_none_iff (sz : Nat → Nat) (asize : Nat) :
    ∀ (T : RTree), orderedB sz T = true → ∀ best : Option Nat,
      (findBestFit sz asize T best = none ↔
        best = none ∧ ∀ c ∈ T.elems, sz c < asize)
  | .nil, _, best => by simp [findBestFit, RTree.elems]
  | .node bp l r, hord, best => by
    simp only [orderedB, Bool.and_eq_true, List.all_eq_true, decide_eq_true_eq] at hord
    obtain ⟨⟨⟨hlt, hge⟩, hol⟩, hor⟩ := hord
    simp only [findBestFit]
    by_cases hfit : asize ≤ sz bp
    · rw [if_pos hfit]
      have hne : (match best with
          | none => some bp
          | some b => if sz bp < sz b then some bp else some b) ≠ (none : Option Nat) := by
        cases best with
        | none => simp
        | some b => by_cases h : sz bp < sz b <;> simp [h]
      constructor
      · intro h
        rcases (findBestFit_eq_none_iff sz asize l hol _).1 h with ⟨h1, _⟩
        exact absurd h1 hne
      · intro ⟨_, hall⟩
        have := hall bp (by simp [RTree.elems])
        omega
    · rw [if_neg hfit]
      rw [findBestFit_eq_none_iff sz asize r hor best]
      constructor
      · intro ⟨h1, h2⟩
        refine ⟨h1, ?_⟩
        intro c hc
        rcases List.mem_cons.1 hc with rfl | hc
        · omega
        · rcases List.mem_append.1 hc with hc | hc
          · have := hlt c hc; omega
          · exact h2 c hc
      · intro ⟨h1, h2⟩
        exact ⟨h1, fun c hc => h2 c (by simp [RTree.elems, hc])⟩

/-- When the functional best-fit search over an ordered tree returns a
candidate, that candidate fits (or was the initial candidate), and its size
is minimal among all fitting elements and at most the initial candidate. -/
theorem findBestFit_eq_some (sz : Nat → Nat) (asize : Nat) :
    ∀ (T : RTree), orderedB sz T = true → ∀ (best : Option Nat) (b : Nat),
      findBestFit sz asize T best = some b →
      ((b ∈ T.elems ∧ asize ≤ sz b) ∨ best = some b) ∧
        (∀ c ∈ T.elems, asize ≤ sz c → sz b ≤ sz c) ∧
        (∀ b0, best = some b0 → sz b ≤ sz b0)
  | .nil, _, best, b => by
    intro h
    simp only [findBestFit] at h
    refine ⟨Or.inr h, by simp [RTree.elems], ?_⟩
    intro b0 hb0
    rw [h] at hb0
    cases hb0
    exact Nat.le_refl _
  | .node bp l r, hord, best, b => by
    intro h
    simp only [orderedB, Bool.and_eq_true, List.all_eq_true, decide_eq_true_eq] at hord
    obtain ⟨⟨⟨hlt, hge⟩, hol⟩, hor⟩ := hord
    simp only [findBestFit] at h
    by_cases hfit : asize ≤ sz bp
    · rw [if_pos hfit] at h
      have main : ∀ b1 : Nat, findBestFit sz asize l (some b1) = some b →
          sz b1 ≤ sz bp → (b1 = bp ∨ best = some b1) →
          (∀ b0, best = some b0 → sz b1 ≤ sz b0) →
          ((b ∈ (RTree.node bp l r).elems ∧ asize ≤ sz b) ∨ best = some b) ∧
            (∀ c ∈ (RTree.node bp l r).elems, asize ≤ sz c → sz b ≤ sz c) ∧
            (∀ b0, best = some b0 → sz b ≤ sz b0) := by
        intro b1 h1 hle hcase hvs0
        obtain ⟨hmem, hmin, hvs⟩ := findBestFit_eq_some sz asize l hol (some b1) b h1
        have hbb1 : sz b ≤ sz b1 := hvs b1 rfl
        have hbbp : sz b ≤ sz bp := Nat.le_trans hbb1 hle
        refine ⟨?_, ?_, ?_⟩
        · rcases hmem with ⟨hbl, hfitb⟩ | hbest1
          · exact Or.inl ⟨by simp [RTree.elems, hbl], hfitb⟩
          · injection hbest1 with hb1b
            subst hb1b
            rcases hcase with rfl | hb
            · exact Or.inl ⟨by simp [RTree.elems], hfit⟩
            · exact Or.inr hb
        · intro c hc hfitc
          rcases List.mem_cons.1 hc with rfl | hc
          · exact hbbp
          · rcases List.mem_append.1 hc with hc | hc
            · exact hmin c hc hfitc
            · exact Nat.le_trans hbbp (hge c hc)
        · intro b0 hb0
          exact Nat.le_trans hbb1 (hvs0 b0 hb0)
      cases best with
      | none =>
        have h2 : findBestFit sz asize l (some bp) = some b := h
        exact main bp h2 (Nat.le_refl _) (Or.inl rfl) (fun b0 hb0 => by cases hb0)
      | some b2 =>
        have h2 : findBestFit sz asize l
            (if sz bp < sz b2 then some bp else some b2) = some b := h
        by_cases hc : sz bp < sz b2
        · rw [if_pos hc] at h2
          exact main bp h2 (Nat.le_refl _) (Or.inl rfl)
            (fun b0 hb0 => by cases hb0; omega)
        · rw [if_neg hc] at h2
          exact main b2 h2 (by omega) (Or.inr rfl)
            (fun b0 hb0 => by cases hb0; exact Nat.le_refl _)
    · rw [if_neg hfit] at h
      obtain ⟨hmem, hmin, hvs⟩ := findBestFit_eq_some sz asize r hor best b h
      refine ⟨?_, ?_, hvs⟩
      · rcases hmem with ⟨hbr, hfitb⟩ | hbest
        · exact Or.inl ⟨by simp [RTree.elems, hbr], hfitb⟩
        · exact Or.inr hbest
      · intro c hc hfitc
        rcases List.mem_cons.1 hc with rfl | hc
        · omega
        · rcases List.mem_append.1 hc with hc | hc
          · have := hlt c hc; omega
          · exact hmin c hc hfitc

/-- Claim C1: on a heap whose memory encodes a search tree T, size-ordered
non-strictly (left at most, right at least the node size -- the order
rbt_insert establishes and the fixup rotations preserve, duplicates
permitted on either side), whose nodes are exactly the free blocks, the
best-fit search returns NONE exactly when no free block has size at least
asize, and otherwise returns a free block of minimal size at least asize. -/
theorem claim_C1 (s : St) (T : RTree) (asize : Nat)
    (henc : encodes s.mem s.root NILa T = true)
    (hord : orderedB (fun bp => GET_SIZE s.mem (bp - 4)) T = true)
    (hcount : T.count < FUEL)
    (hsub1 : ∀ bp ∈ T.elems, bp ∈ freeList s)
    (hsub2 : ∀ bp ∈ freeList s, bp ∈ T.elems) :
    (find_fit s asize = none ↔ ∀ b ∈ blockList s, b.2.2 = 0 → b.2.1 < asize) ∧
      (∀ bp, find_fit s asize = some bp →
        bp ∈ freeList s ∧ asize ≤ GET_SIZE s.mem (HDRP bp) ∧
          ∀ b ∈ blockList s, b.2.2 = 0 → asize ≤ b.2.1 →
            GET_SIZE s.mem (HDRP bp) ≤ b.2.1) := by
  have href : find_fit s asize =
      findBestFit (fun bp => GET_SIZE s.mem (bp - 4)) asize T none :=
    rbt_find_best_fit_refines s.mem asize T FUEL s.root NILa none henc hcount
  have hfree_mem : ∀ c, c ∈ freeList s ↔
      ∃ x ∈ blockList s, x.1 = c ∧ x.2.2 = 0 := by
    intro c
    constructor
    · intro hc
      obtain ⟨x, hx1, hx2⟩ := List.mem_map.1 hc
      have hx3 := List.mem_filter.1 hx1
      exact ⟨x, hx3.1, hx2, by simpa using hx3.2⟩
    · rintro ⟨x, hx1, hx2, hx3⟩
      exact List.mem_map.2 ⟨x, List.mem_filter.2 ⟨hx1, by simpa using hx3⟩, hx2⟩
  have hwalk : ∀ x ∈ blockList s, x.2.1 = GET_SIZE s.mem (HDRP x.1) :=
    fun x hx => (mem_blockListGo s.mem FUEL _ x hx).1
  constructor
  · rw [href, findBestFit_eq_none_iff _ _ T hord none]
    constructor
    · rintro ⟨_, hall⟩ b hb hbf
      have hbc : b.1 ∈ freeList s := (hfree_mem b.1).2 ⟨b, hb, rfl, hbf⟩
      have := hall b.1 (hsub2 b.1 hbc)
      rw [hwalk b hb]
      simpa [HDRP] using this
    · intro hall
      refine ⟨rfl, ?_⟩
      intro c hcT
      obtain ⟨x, hx1, hx2, hx3⟩ := (hfree_mem c).1 (hsub1 c hcT)
      have := hall x hx1 hx3
      rw [hwalk x hx1] at this
      subst hx2
      simpa [HDRP] using this
  · intro bp hbp
    rw [href] at hbp
    obtain ⟨hmem, hmin, _⟩ :=
      findBestFit_eq_some (fun bp => GET_SIZE s.mem (bp - 4)) asize T hord none bp hbp
    rcases hmem with ⟨hbpT, hbpfit⟩ | hnone
    · refine ⟨hsub1 bp hbpT, by simpa [HDRP] using hbpfit, ?_⟩
      intro b hb hbf hble
      have hbc : b.1 ∈ freeList s := (hfree_mem b.1).2 ⟨b, hb, rfl, hbf⟩
      have hbT := hsub2 b.1 hbc
      have := hmin b.1 hbT (by rw [hwalk b hb] at hble; simpa [HDRP] using hble)
      rw [hwalk b hb]
      simpa [HDRP] using this
    · cases hnone

/-- Witness for claim C1: the freshly initialized heap, whose tree is the
single node at 32 of size 4096, queried with asize = 100. -/
theorem claim_C1_witness :
    (encodes sInit.mem sInit.root NILa (RTree.node 32 RTree.nil RTree.nil) = true ∧
      orderedB (fun bp => GET_SIZE sInit.mem (bp - 4))
        (RTree.node 32 RTree.nil RTree.nil) = true ∧
      (RTree.node 32 RTree.nil RTree.nil).count < FUEL ∧
      (∀ bp ∈ (RTree.node 32 RTree.nil RTree.nil).elems, bp ∈ freeList sInit) ∧
      (∀ bp ∈ freeList sInit, bp ∈ (RTree.node 32 RTree.nil RTree.nil).elems)) ∧
    ((find_fit sInit 100 = none ↔
        ∀ b ∈ blockList sInit, b.2.2 = 0 → b.2.1 < 100) ∧
      (∀ bp, find_fit sInit 100 = some bp →
        bp ∈ freeList sInit ∧ 100 ≤ GET_SIZE sInit.mem (HDRP bp) ∧
          ∀ b ∈ blockList sInit, b.2.2 = 0 → 100 ≤ b.2.1 →
            GET_SIZE sInit.mem (HDRP bp) ≤ b.2.1)) :=
  ⟨⟨by decide, by decide, by decide, by decide, by decide⟩,
    claim_C1 sInit (RTree.node 32 RTree.nil RTree.nil) 100
      (by decide) (by decide) (by decide) (by decide) (by decide)⟩

/-- Claim C4: reallocate(p, n) with 0 < n at most the payload capacity
size − 8 of the (valid: size a multiple of 8, at least MINBLOCKSIZE)
allocated block p returns p itself: the shrink branch is taken and both of
its arms return the original pointer. -/
theorem claim_C4 (s : St) (ptr n csize : Nat)
    (hptr : ptr ≠ 0) (hn : n ≠ 0)
    (hsz : GET_SIZE s.mem (HDRP ptr) = csize)
    (h8 : csize % 8 = 0) (h48 : MINBLOCKSIZE ≤ csize) (hcs : csize < 4294967296)
    (hpay : n ≤ csize - DSIZE) :
    (mm_realloc s ptr n).2 = some ptr := by
  have h48' : 48 ≤ csize := by simpa [MINBLOCKSIZE] using h48
  have hle : MAXi (adjSize n) MINBLOCKSIZE ≤ csize :=
    asize_le_csize n csize h8 h48' hcs (by simp only [DSIZE] at hpay; omega)
  unfold mm_realloc
  rw [if_neg hn, if_neg hptr]
  simp only [hsz]
  rw [if_pos hle]
  split
  · rfl
  · rfl

/-- Witness for claim C4: shrinking the 112-byte block allocated for a
request of 100 bytes down to 50 bytes returns the same pointer. -/
theorem claim_C4_witness :
    ((32 : Nat) ≠ 0 ∧ (50 : Nat) ≠ 0 ∧
      GET_SIZE sNil1.mem (HDRP 32) = 112 ∧ (112 : Nat) % 8 = 0 ∧
      MINBLOCKSIZE ≤ 112 ∧ (112 : Nat) < 4294967296 ∧ (50 : Nat) ≤ 112 - DSIZE) ∧
    (mm_realloc sNil1 32 50).2 = some 32 :=
  ⟨⟨by decide, by decide, by decide, by decide, by decide, by decide, by decide⟩,
    claim_C4 sNil1 32 50 112 (by decide) (by decide) (by decide) (by decide)
      (by decide) (by decide) (by decide)⟩

/-- Claim C10, amended: when n + 15 < 2^31 (so the int-valued MAX in the
code cannot clamp the adjusted size) and the adjusted size
max(48, roundup8(n+8)) fits in the block but the remainder is below
MINBLOCKSIZE, reallocate(p, n) returns p and performs no write at all: the
resulting state is exactly the input state.  Without the size bound the
claim is false -- see the counterexample below. -/
theorem claim_C10 (s : St) (ptr n csize : Nat)
    (hptr : ptr ≠ 0) (hn : n ≠ 0)
    (hsz : GET_SIZE s.mem (HDRP ptr) = csize)
    (hn31 : n + 15 < 2147483648)
    (hfit : adjustedSize n ≤ csize)
    (hrem : csize - adjustedSize n < MINBLOCKSIZE) :
    mm_realloc s ptr n = (s, some ptr) := by
  have ha : MAXi (adjSize n) MINBLOCKSIZE = adjustedSize n :=
    adjSize_eq_adjustedSize n hn31
  unfold mm_realloc
  rw [if_neg hn, if_neg hptr]
  simp only [hsz, ha]
  rw [if_pos hfit, if_neg (by omega)]

/-- Claim C10, counterexample to the unrestricted original claim: on the
reachable heap sBig whose single block is allocated with size exactly 2^31,
the request n = 2147483633 = 2^31 - 15 satisfies every condition of the
claim -- the adjusted size max(48, roundup8(n+8)) is 2^31, it fits the
block exactly and the remainder 0 is below 48, so the claim asserts the
heap is left unchanged -- yet the code computes its adjusted size through
the int-valued MAX, which clamps the negative int 2^31 to 48, takes the
split arm of the shrink branch and carves the block into an allocated
48-byte block and a free 2147483600-byte block: the heap changes. -/
theorem claim_C10_counterexample :
    (GET_ALLOC sBig.mem (HDRP 32) = 1 ∧
      GET_SIZE sBig.mem (HDRP 32) = 2147483648 ∧
      (2147483633 : Nat) ≠ 0 ∧
      adjustedSize 2147483633 = 2147483648 ∧
      adjustedSize 2147483633 ≤ 2147483648 ∧
      2147483648 - adjustedSize 2147483633 < MINBLOCKSIZE) ∧
    blockList sBig = [(32, 2147483648, 1)] ∧
    (mm_realloc sBig 32 2147483633).2 = some 32 ∧
    blockList (mm_realloc sBig 32 2147483633).1 =
      [(32, 48, 1), (80, 2147483600, 0)] := by decide

/-- Witness for claim C10: reallocate(p, 100) on the 112-byte block created
for a request of 100 bytes leaves the state untouched and returns p. -/
theorem claim_C10_witness :
    ((32 : Nat) ≠ 0 ∧ (100 : Nat) ≠ 0 ∧
      GET_SIZE sNil1.mem (HDRP 32) = 112 ∧ (100 : Nat) + 15 < 2147483648 ∧
      adjustedSize 100 ≤ 112 ∧ (112 : Nat) - adjustedSize 100 < MINBLOCKSIZE) ∧
    mm_realloc sNil1 32 100 = (sNil1, some 32) :=
  ⟨⟨by decide, by decide, by decide, by decide, by decide, by decide⟩,
    claim_C10 sNil1 32 100 112 (by decide) (by decide) (by decide) (by decide)
      (by decide) (by decide)⟩

/-- A failing heap extension leaves the state untouched: the provider call
is the first action and nothing is written when it fails. -/
theorem extend_heap_none (s : St) (w fuel : Nat)
    (h : (extend_heap s w fuel).2 = none) : (extend_heap s w fuel).1 = s := by
  simp only [extend_heap, mem_sbrk] at h ⊢
  by_cases hc : u32 (if w % 2 = 1 then (w + 1) * WSIZE else w * WSIZE) < 2147483648 ∧
      s.brk + u32 (if w % 2 = 1 then (w + 1) * WSIZE else w * WSIZE) ≤ s.limit
  · rw [if_pos hc] at h
    simp at h
  · rw [if_neg hc]

/-- A failing mm_malloc leaves the state untouched: the only failing paths
are a zero request and a failed extension, and neither writes. -/
theorem mm_malloc_none (s : St) (n : Nat) (h : (mm_malloc s n).2 = none) :
    (mm_malloc s n).1 = s := by
  simp only [mm_malloc] at h ⊢
  by_cases hn : n = 0
  · rw [if_pos hn]
  · rw [if_neg hn] at h ⊢
    cases hff : find_fit s (MAXi (adjSize n) MINBLOCKSIZE) with
    | some bp =>
      rw [hff] at h
      exact Option.noConfusion h
    | none =>
      rw [hff] at h
      have hsp : extend_heap s (MAXi (MAXi (adjSize n) MINBLOCKSIZE) CHUNKSIZE / WSIZE) FUEL =
          ((extend_heap s (MAXi (MAXi (adjSize n) MINBLOCKSIZE) CHUNKSIZE / WSIZE) FUEL).1,
            (extend_heap s (MAXi (MAXi (adjSize n) MINBLOCKSIZE) CHUNKSIZE / WSIZE) FUEL).2) := rfl
      rw [hsp] at h ⊢
      cases hee : (extend_heap s (MAXi (MAXi (adjSize n) MINBLOCKSIZE) CHUNKSIZE / WSIZE) FUEL).2 with
      | some bp =>
        rw [hee] at h
        exact Option.noConfusion h
      | none =>
        rw [hee] at h
        exact extend_heap_none s _ FUEL hee

/-- Claim C6: when reallocate(p, n) reaches the fall-back path (the block
cannot satisfy the request in place and the next block cannot be absorbed)
and the internal allocation fails, it returns NONE and the whole state --
in particular the old block, its size and its payload -- is unchanged. -/
theorem claim_C6 (s : St) (ptr n csize : Nat)
    (hptr : ptr ≠ 0) (hn : n ≠ 0)
    (hsz : GET_SIZE s.mem (HDRP ptr) = csize)
    (hgrow : ¬ MAXi (adjSize n) MINBLOCKSIZE ≤ csize)
    (hnext : ¬ (GET_ALLOC s.mem (HDRP (NEXT_BLKP s.mem ptr)) = 0 ∧
        MAXi (adjSize n) MINBLOCKSIZE ≤
          u32 (GET_SIZE s.mem (HDRP (NEXT_BLKP s.mem ptr)) + csize)))
    (hfail : (mm_malloc s n).2 = none) :
    mm_realloc s ptr n = (s, none) := by
  have hmm : mm_malloc s n = (s, none) := by
    have h1 := mm_malloc_none s n hfail
    cases hE : mm_malloc s n with
    | mk a b =>
      rw [hE] at h1 hfail
      simp only at h1 hfail
      rw [h1, hfail]
  unfold mm_realloc
  rw [if_neg hn, if_neg hptr]
  simp only [hsz]
  rw [if_neg hgrow, if_neg hnext, hmm]

/-- Witness for claim C6: on the nearly exhausted tight heap, growing the
4008-byte block to 8000 bytes must fall back, the fall-back allocation
fails, and the state is returned unchanged with NONE. -/
theorem claim_C6_witness :
    ((32 : Nat) ≠ 0 ∧ (8000 : Nat) ≠ 0 ∧
      GET_SIZE sTight1.mem (HDRP 32) = 4008 ∧
      ¬ MAXi (adjSize 8000) MINBLOCKSIZE ≤ 4008 ∧
      ¬ (GET_ALLOC sTight1.mem (HDRP (NEXT_BLKP sTight1.mem 32)) = 0 ∧
        MAXi (adjSize 8000) MINBLOCKSIZE ≤
          u32 (GET_SIZE sTight1.mem (HDRP (NEXT_BLKP sTight1.mem 32)) + 4008)) ∧
      (mm_malloc sTight1 8000).2 = none) ∧
    mm_realloc sTight1 32 8000 = (sTight1, none) :=
  ⟨⟨by decide, by decide, by decide, by decide, by decide, by decide⟩,
    claim_C6 sTight1 32 8000 4008 (by decide) (by decide) (by decide) (by decide)
      (by decide) (by decide)⟩

/-- Claim C9: from a fresh init, the sequence p = allocate(40); free(p)
leaves the heap with exactly one free block, of total size CHUNKSIZE. -/
theorem claim_C9 : blockList sCycle = [(32, CHUNKSIZE, 0)] := by decide

/-- Claim C7, evaluation at the failing input: allocate(SIZE_MAX) with
SIZE_MAX = 2^32 - 1 does not return NONE and does not leave the heap
unchanged; the 32-bit computation of the adjusted size wraps around to 8,
is raised to MINBLOCKSIZE = 48, and a 48-byte block is carved out of the
initial free chunk and returned. -/
theorem claim_C7_bug :
    (mm_malloc sInit 4294967295).2 = some 32 ∧
      blockList sInit = [(32, 4096, 0)] ∧
      blockList (mm_malloc sInit 4294967295).1 = [(32, 48, 1), (80, 4048, 0)] := by
  decide

/-- Claim C3, evaluation at the failing input: after the public operation
reallocate(p, 40) on the heap produced by init; p = allocate(200), the
shrink path splits off a free remainder without coalescing, leaving two
physically adjacent free blocks (at 80 and 240). -/
theorem claim_C3_bug :
    (mm_realloc sShrinkPre 32 40).2 = some 32 ∧
      blockList sShrink = [(32, 48, 1), (80, 160, 0), (240, 3888, 0)] ∧
      noTwoAdjacentFree (blockList sShrink) = false := by
  decide

/-- Claim C8, evaluation at the failing input: after the public operation
allocate(40) on the heap produced by init; a = allocate(100);
b = allocate(100); free(a), the parent field of the NIL sentinel holds the
address 256 of a tree node, not NIL: removing the best-fit block
transplanted a NIL child and rbt_transplant wrote the parent of the removed
node into the NIL parent field.  The other three sentinel fields are still
intact at that state, so it is specifically the parent pointer that the
code fails to maintain. -/
theorem claim_C8_bug :
    (PARENT sNil4.mem NILa = 256 ∧ (256 : Nat) ≠ NILa) ∧
    LEFT sNil4.mem NILa = NILa ∧ RIGHT sNil4.mem NILa = NILa ∧
      COLOR sNil4.mem NILa = BLACK := by decide

end MM
